import Mathlib

/-!
# Verification of `assets/js/site.js`

A shallow embedding of the client-side rendering script: tag extraction
(`getTags`), HTML escaping (`escapeHtml`), the tag navigation (`renderTags`),
the post directory (`renderPosts`) and the bootstrap (`loadIndex`).

JavaScript strings are embedded as Lean strings and processed as lists of
characters.  Functions of the host (the browser) that the script calls but does
not define are parameters of the embedding, collected in `Host`.
-/

namespace Site

/-! ## Host built-ins on strings -/

/-- The characters removed by `String.prototype.trim`: the ECMAScript
`WhiteSpace` and `LineTerminator` productions. -/
def isWhiteSpace (c : Char) : Bool :=
  let n := c.toNat
  n == 0x09 || n == 0x0A || n == 0x0B || n == 0x0C || n == 0x0D || n == 0x20 ||
  n == 0xA0 || n == 0x1680 || (0x2000 ≤ n && n ≤ 0x200A) || n == 0x2028 ||
  n == 0x2029 || n == 0x202F || n == 0x205F || n == 0x3000 || n == 0xFEFF

/-- Drop the longest prefix of white space. -/
def trimStart : List Char → List Char
  | [] => []
  | c :: cs => if isWhiteSpace c then trimStart cs else c :: cs

/-- `String.prototype.trim` on the characters of a string. -/
def trimChars (cs : List Char) : List Char :=
  (trimStart (trimStart cs).reverse).reverse

/-- `String.prototype.trim`. -/
def jsTrim (s : String) : String := String.mk (trimChars s.toList)

/-- `String.prototype.split` with a one-character separator, on characters: the
pieces between the occurrences of the separator (`"".split(",")` is `[""]`). -/
def splitChars (sep : Char) : List Char → List (List Char)
  | [] => [[]]
  | c :: cs =>
    if c = sep then [] :: splitChars sep cs
    else
      match splitChars sep cs with
      | [] => [[c]]
      | piece :: rest => (c :: piece) :: rest

/-- `String.prototype.split` with a one-character separator. -/
def jsSplit (sep : Char) (s : String) : List String :=
  (splitChars sep s.toList).map String.mk

/-- Truthiness of a string, as tested by `Boolean`, `!` and `||`: every string
but the empty one. -/
def truthy (s : String) : Bool := s.toList.length != 0

/-- `String.prototype.replace` with a global one-character class and a callback:
every character of the class is replaced by the callback's result. -/
def replaceAll (cls : Char → Bool) (f : Char → String) : List Char → List Char
  | [] => []
  | c :: cs =>
    if cls c then (f c).toList ++ replaceAll cls f cs else c :: replaceAll cls f cs

/-! ## `escapeHtml` -/

/-- The double quote character. -/
def dquote : Char := Char.ofNat 34

/-- The single quote character. -/
def squote : Char := Char.ofNat 39

/-- The character class of the regular expression in `escapeHtml`. -/
def reservedClass (c : Char) : Bool :=
  c == '&' || c == '<' || c == '>' || c == dquote || c == squote

/-- The object literal of `escapeHtml`, as a list of its properties. -/
def entityTable : List (Char × String) :=
  [('&', "&amp;"), ('<', "&lt;"), ('>', "&gt;"), (dquote, "&quot;"), (squote, "&#39;")]

/-- The callback of `escapeHtml`: the property of the object literal named by
the matched character; a missing property is `undefined`, which `replace`
inserts as the text `undefined`. -/
def entityOf (c : Char) : String :=
  match entityTable.lookup c with
  | some e => e
  | none => "undefined"

/-- `escapeHtml(s)`; `toStr` is the host's `String(·)` coercion of the argument. -/
def escapeHtml {α : Type} (toStr : α → String) (s : α) : String :=
  String.mk (replaceAll reservedClass entityOf (toStr s).toList)

/-- The replacement of one character as the specification words it: the five
reserved characters become their entity, every other character stays. -/
def entitySpec (c : Char) : List Char :=
  if c = '&' then "&amp;".toList
  else if c = '<' then "&lt;".toList
  else if c = '>' then "&gt;".toList
  else if c = dquote then "&quot;".toList
  else if c = squote then "&#39;".toList
  else [c]

/-- The escaped text as the specification words it: each character replaced in
place by `entitySpec`. -/
def escapeSpec (s : String) : String := String.mk (s.toList.flatMap entitySpec)

/-! ## Posts and `getTags` -/

/-- The value of the `tags` property of a post object. -/
inductive TagsValue where
  | undefined
  | null
  | boolean (b : Bool)
  | number (n : Int)
  | object
  | string (s : String)
  | array (items : List String)
  deriving DecidableEq, Repr

/-- A post object of the index: `title`, `url`, optional `date`, and `tags`. -/
structure Post where
  title : String
  url : String
  date : Option String
  tags : TagsValue
  deriving DecidableEq, Repr

/-- The argument of `getTags`: `undefined`, `null` or a post object. -/
inductive PostRef where
  | undefined
  | null
  | object (p : Post)
  deriving DecidableEq, Repr

/-- `getTags(post)`. -/
def getTags : PostRef → List String
  | .undefined => []
  | .null => []
  | .object p =>
    match p.tags with
    | .array items => items
    | .string s => ((jsSplit ',' s).map jsTrim).filter truthy
    | _ => []

/-- The tags of a string-valued `tags` field as the specification words them:
split on commas, trim white space from both ends of each piece, drop the empty
pieces, keep the order. -/
def tagsSpec (s : String) : List String :=
  (((s.toList.splitOn ',').map
      (fun piece => (piece.dropWhile isWhiteSpace).rdropWhile isWhiteSpace)).filter
    (fun piece => decide (piece ≠ []))).map String.mk

/-! ## The host and the page -/

/-- Functions of the browser that the script calls and does not define. -/
structure Host where
  /-- `String.prototype.localeCompare`: negative, zero or positive. -/
  localeCompare : String → String → Int
  /-- The global `encodeURIComponent`. -/
  encodeURIComponent : String → String
  /-- The message of the `TypeError` raised by a property access on `null`. -/
  nullAccessMessage : String

/-- A comparator the host may pass to a sort with a defined result: comparing in
the other direction flips the sign, and "not after" is transitive. -/
structure Host.Consistent (host : Host) : Prop where
  flip : ∀ a b, 0 < host.localeCompare a b ↔ host.localeCompare b a < 0
  trans : ∀ a b c, host.localeCompare a b ≤ 0 → host.localeCompare b c ≤ 0 →
    host.localeCompare a c ≤ 0

/-- The global object, as far as the script uses it: the `__getTags` property
(`none` while it is not yet assigned). -/
structure Window where
  __getTags : Option (PostRef → List String)

/-- The global object after `loadIndex` has assigned `window.__getTags`. -/
def Window.loaded : Window := { __getTags := some getTags }

/-- The expression `(window.__getTags && window.__getTags(p)) || []`. -/
def tagsVia (win : Window) (p : Post) : List String :=
  match win.__getTags with
  | none => []
  | some f => f (.object p)

/-- `Array.prototype.sort` with a comparator.  The sort is stable, so for a
consistent comparator its result is fixed by the language; it is computed here
by a stable insertion sort (`a` goes before `b` when `cmp a b ≤ 0`). -/
def jsSort {α : Type} (cmp : α → α → Int) (l : List α) : List α :=
  l.insertionSort (fun a b => cmp a b ≤ 0)

/-- `Array.prototype.findIndex`: the first index whose element satisfies the
predicate, `-1` when there is none. -/
def findIndex {α : Type} (p : α → Bool) : List α → Int
  | [] => -1
  | x :: xs =>
    if p x then 0
    else
      let r := findIndex p xs
      if r < 0 then -1 else r + 1

/-- Falsiness of the result of `URLSearchParams.get`: `null` (parameter absent)
and the empty string. -/
def isFalsy : Option String → Bool
  | none => true
  | some s => !truthy s

/-- `Array.prototype.includes` on an array of strings; `null` equals no string. -/
def includes (xs : List String) : Option String → Bool
  | none => false
  | some s => xs.contains s

/-! ## `renderTags` -/

/-- A `Map` from tags to counts: its entries in insertion order. -/
abbrev TagMap := List (String × Nat)

/-- `Map.prototype.get`. -/
def TagMap.get (m : TagMap) (k : String) : Option Nat :=
  match m with
  | [] => none
  | (k', v) :: rest => if k' = k then some v else TagMap.get rest k

/-- `Map.prototype.set`: an existing key keeps its place, a new key is added at
the end. -/
def TagMap.set (m : TagMap) (k : String) (v : Nat) : TagMap :=
  match m with
  | [] => [(k, v)]
  | (k', v') :: rest => if k' = k then (k, v) :: rest else (k', v') :: TagMap.set rest k v

/-- The statement `tagMap.set(t, (tagMap.get(t) || 0) + 1)`. -/
def bump (m : TagMap) (t : String) : TagMap :=
  m.set t ((m.get t).getD 0 + 1)

/-- The tag-count map built by the two nested `forEach` loops of `renderTags`. -/
def buildTagMap (win : Window) (posts : List Post) : TagMap :=
  posts.foldl (fun m p => (tagsVia win p).foldl bump m) []

/-- The comparator `(a, b) => b[1] - a[1] || a[0].localeCompare(b[0])`. -/
def tagCompare (host : Host) (a b : String × Nat) : Int :=
  let d : Int := (b.2 : Int) - (a.2 : Int)
  if d ≠ 0 then d else host.localeCompare a.1 b.1

/-- The constant `sorted` of `renderTags`. -/
def sortedTags (host : Host) (win : Window) (posts : List Post) : List (String × Nat) :=
  jsSort (tagCompare host) (buildTagMap win posts)

/-- The constant `VISIBLE_COUNT` of `renderTags`. -/
def VISIBLE_COUNT : Nat := 5

/-- An `a` element: its `href`, its text and its class list. -/
structure Anchor where
  href : String
  textContent : String
  classList : List String
  deriving DecidableEq, Repr

/-- The `div.tags-list` element: its links and its class list. -/
structure TagsList where
  children : List Anchor
  classList : List String
  deriving DecidableEq, Repr

/-- The `button.tag-toggle` element: its label and its `aria-expanded` attribute. -/
structure Toggle where
  textContent : String
  ariaExpanded : String
  deriving DecidableEq, Repr

/-- The children `renderTags` gives the tag navigation: the "all" link, then the
tag list and the toggle when they are rendered. -/
structure TagNav where
  allLink : Anchor
  list : Option TagsList
  toggle : Option Toggle
  deriving DecidableEq, Repr

/-- The link of one entry of `sorted`, built by the `forEach` callback. -/
def tagAnchor (host : Host) (activeTag : Option String) (idx : Nat) (entry : String × Nat) :
    Anchor :=
  { href := "?tag=" ++ host.encodeURIComponent entry.1
    textContent := entry.1 ++ " (" ++ toString entry.2 ++ ")"
    classList := ["tag"] ++ (if idx < VISIBLE_COUNT then ["visible"] else []) ++
      (if some entry.1 = activeTag then ["active"] else []) }

/-- The initial value of `expanded`. -/
def initialExpanded (activeTag : Option String) (sorted : List (String × Nat)) : Bool :=
  if isFalsy activeTag then false
  else decide (findIndex (fun e => decide (some e.1 = activeTag)) sorted ≥ (VISIBLE_COUNT : Int))

/-- The label of the toggle for a state of `expanded`. -/
def toggleLabel (expanded : Bool) (total : Nat) : String :=
  if expanded then "收起标签" else "展开全部标签 (" ++ toString total ++ ")"

/-- The elements `renderTags(posts)` puts into the tag navigation; `activeTag` is
`params.get("tag")`. -/
def tagNav (host : Host) (win : Window) (activeTag : Option String) (posts : List Post) :
    TagNav :=
  let sorted := sortedTags host win posts
  let allLink : Anchor :=
    { href := "./", textContent := "全部"
      classList := if isFalsy activeTag then ["active"] else [] }
  if sorted.length = 0 then { allLink := allLink, list := none, toggle := none }
  else
    let children := sorted.mapIdx (tagAnchor host activeTag)
    let expanded := initialExpanded activeTag sorted
    let list : TagsList :=
      { children := children
        classList := ["tags-list"] ++ (if !expanded then ["collapsed"] else []) }
    let total := sorted.length
    let toggle : Option Toggle :=
      if total > VISIBLE_COUNT then
        some { textContent := toggleLabel expanded total
               ariaExpanded := if expanded then "true" else "false" }
      else none
    { allLink := allLink, list := some list, toggle := toggle }

/-! ## `renderPosts` -/

/-- The predicate of `posts.filter` in `renderPosts`; `filter` is
`params.get("tag")`. -/
def keepPost (win : Window) (filter : Option String) (p : Post) : Bool :=
  isFalsy filter || includes (tagsVia win p) filter

/-- The expression `p.date || ""`. -/
def dateOr (p : Post) : String :=
  match p.date with
  | none => ""
  | some d => if truthy d then d else ""

/-- The comparator `(a, b) => (b.date || "").localeCompare(a.date || "")`. -/
def dateCompare (host : Host) (a b : Post) : Int :=
  host.localeCompare (dateOr b) (dateOr a)

/-- The array `shown` after `posts.filter`. -/
def shownPosts (win : Window) (filter : Option String) (posts : List Post) : List Post :=
  posts.filter (keepPost win filter)

/-- The array `shown` after `shown.sort`. -/
def sortedShown (host : Host) (win : Window) (filter : Option String) (posts : List Post) :
    List Post :=
  jsSort (dateCompare host) (shownPosts win filter posts)

/-- The `innerHTML` of the `div.dir-item` of one post. -/
def dirItem (p : Post) : String :=
  "\n      <a href=\"" ++ p.url ++ "\">" ++ escapeHtml id p.title ++ "</a>\n      <span class=\"meta\">" ++
    escapeHtml id (dateOr p) ++ "</span>\n    "

/-- The content of the posts container: markup assigned to `innerHTML`, or the
`div.directory` wrapper around the `div.dir-item` elements (given by their
`innerHTML`). -/
inductive PostsContent where
  | html (markup : String)
  | directory (items : List String)
  deriving DecidableEq, Repr

/-- The markup `renderPosts` shows when no post is kept. -/
def emptyMarkup : String :=
  "<div class=\"directory\"><h2 class=\"dir-title\">文章目录</h2><div class=\"dir-list loading\">没有找到相关文章。</div></div>"

/-- The content `renderPosts(posts)` gives the posts container. -/
def postsView (host : Host) (win : Window) (filter : Option String) (posts : List Post) :
    PostsContent :=
  if (shownPosts win filter posts).length = 0 then .html emptyMarkup
  else .directory ((sortedShown host win filter posts).map dirItem)

/-! ## The document and `loadIndex` -/

/-- The content of the tag navigation container: as the page delivered it, or as
`renderTags` left it. -/
inductive NavContent where
  | page (markup : String)
  | rendered (nav : TagNav)
  deriving DecidableEq, Repr

/-- The two containers of the document; `none` when `getElementById` finds no
such element. -/
structure Dom where
  tagNav : Option NavContent
  posts : Option PostsContent
  deriving DecidableEq, Repr

/-- The calls of the two render functions. -/
inductive Call where
  | renderTags
  | renderPosts
  deriving DecidableEq, Repr

/-- The state the script runs on: global object, document, and the log of the
render functions entered so far. -/
structure State where
  window : Window
  dom : Dom
  calls : List Call

/-- The outcome of a function body: the state it leaves, and the message of
the error it threw, if any. -/
structure Outcome where
  state : State
  thrown : Option String

/-- `renderTags(posts)` on the document: a missing container makes the first
assignment to `nav.innerHTML` throw. -/
def renderTags (host : Host) (activeTag : Option String) (posts : List Post) (st : State) :
    Outcome :=
  let st := { st with calls := st.calls ++ [Call.renderTags] }
  match st.dom.tagNav with
  | none => { state := st, thrown := some host.nullAccessMessage }
  | some _ =>
    { state := { st with dom := { st.dom with
        tagNav := some (.rendered (tagNav host st.window activeTag posts)) } }
      thrown := none }

/-- `renderPosts(posts)` on the document: a missing container makes the
assignment to `container.innerHTML` throw. -/
def renderPosts (host : Host) (filter : Option String) (posts : List Post) (st : State) :
    Outcome :=
  let st := { st with calls := st.calls ++ [Call.renderPosts] }
  match st.dom.posts with
  | none => { state := st, thrown := some host.nullAccessMessage }
  | some _ =>
    { state := { st with dom := { st.dom with
        posts := some (postsView host st.window filter posts) } }
      thrown := none }

/-- What `fetch("/index.json")` and `res.json()` deliver: the fetch rejects with
an error, or resolves to a response with its `ok` flag and the outcome of
parsing its body. -/
inductive FetchResult where
  | rejected (message : String)
  | response (ok : Bool) (json : Except String (List Post))

/-- The `try` block of `loadIndex`. -/
def loadIndexTry (host : Host) (tag : Option String) (fetched : FetchResult) (st : State) :
    Outcome :=
  match fetched with
  | .rejected message => { state := st, thrown := some message }
  | .response ok json =>
    if !ok then { state := st, thrown := some "无法加载 index.json" }
    else
      match json with
      | .error message => { state := st, thrown := some message }
      | .ok posts =>
        let st := { st with window := { st.window with __getTags := some getTags } }
        let r := renderTags host tag posts st
        match r.thrown with
        | some message => { state := r.state, thrown := some message }
        | none => renderPosts host tag posts r.state

/-- The `catch` block of `loadIndex`: it writes the message into the posts
container, and throws itself when that container is missing. -/
def loadIndexCatch (host : Host) (message : String) (st : State) : Outcome :=
  match st.dom.posts with
  | none => { state := st, thrown := some host.nullAccessMessage }
  | some _ =>
    { state := { st with dom := { st.dom with
        posts := some (.html ("<p class=\"loading\">加载失败：" ++ message ++ "</p>")) } }
      thrown := none }

/-- `loadIndex()`: the state it leaves, and the error its promise rejects with,
if any; `tag` is the `tag` parameter of the page's URL. -/
def loadIndex (host : Host) (tag : Option String) (fetched : FetchResult) (st : State) :
    Outcome :=
  let r := loadIndexTry host tag fetched st
  match r.thrown with
  | none => r
  | some message => loadIndexCatch host message r.state

/-! ## Notions the claims are stated with -/

/-- The (post, tag) occurrences: the extracted tags of all posts, in order. -/
def allTags (posts : List Post) : List String :=
  posts.flatMap (fun p => getTags (.object p))

/-- The keys of a tag-count map, in insertion order. -/
def TagMap.keys (m : TagMap) : List String := m.map Prod.fst

/-- The counts of a tag-count map, in insertion order. -/
def TagMap.counts (m : TagMap) : List Nat := m.map Prod.snd

/-- The order of the entries of `sorted` as the specification words it:
descending count, and for equal counts ascending comparison of the tags by the
host's `localeCompare`. -/
def tagOrder (host : Host) (a b : String × Nat) : Prop :=
  b.2 < a.2 ∨ (a.2 = b.2 ∧ host.localeCompare a.1 b.1 ≤ 0)

/-- Lexicographic comparison of two character sequences by character code:
`-1`, `0` or `1`. -/
def compareChars : List Char → List Char → Int
  | [], [] => 0
  | [], _ :: _ => -1
  | _ :: _, [] => 1
  | a :: as, b :: bs =>
    if a.toNat < b.toNat then -1
    else if b.toNat < a.toNat then 1
    else compareChars as bs

/-- A host that compares strings lexicographically by their characters; it
serves as a concrete instance of the host. -/
def lexHost : Host :=
  { localeCompare := fun a b => compareChars a.toList b.toList
    encodeURIComponent := id
    nullAccessMessage := "Cannot set properties of null" }

/-- The order of two posts in the directory under lexicographic comparison of
their dates by character code, descending: `a` may stand before `b`. -/
def lexDateOrder (a b : Post) : Prop :=
  compareChars (dateOr b).toList (dateOr a).toList ≤ 0

/-- Characters without weight in the browsers' default collation; of these the
NUL control character is covered here. -/
def ignorable (c : Char) : Bool := c.toNat == 0

/-- The characters of a string that carry weight in the collation. -/
def weighted (cs : List Char) : List Char := cs.filter (fun c => !ignorable c)

/-- The first-level key of a string in the collation: its weighted characters
without regard to case. -/
def primaryKey (cs : List Char) : List Char := (weighted cs).map Char.toLower

/-- A comparison that follows the browsers' default collation on two points:
characters without weight are skipped, and letters are compared alphabetically
first; case, lower before upper, only breaks ties. -/
def collationCompare (a b : String) : Int :=
  let p := compareChars (primaryKey a.toList) (primaryKey b.toList)
  if p ≠ 0 then p else - compareChars (weighted a.toList) (weighted b.toList)

/-- A host whose `localeCompare` is `collationCompare`. -/
def collationHost : Host :=
  { localeCompare := collationCompare
    encodeURIComponent := id
    nullAccessMessage := "Cannot set properties of null" }

/-- A sample index with the two tags `B` and `a`, of one occurrence each. -/
def caseTagPosts : List Post :=
  [{ title := "1", url := "/1", date := some "2024-02-01", tags := .array ["B", "a"] }]

/-- A sample index with two tags that differ by a NUL character only. -/
def nulTagPosts : List Post :=
  [{ title := "1", url := "/1", date := some "2024-02-01",
     tags := .array [String.mk ['x', Char.ofNat 0], "x"] }]

/-- A sample index with dates that differ in the case of their first letter. -/
def monthPosts : List Post :=
  [{ title := "Spring", url := "/spring", date := some "april 2024", tags := .undefined },
   { title := "Winter", url := "/winter", date := some "March 2024", tags := .undefined }]

/-- A sample index with a post without a date before a post whose date is a
single NUL character. -/
def nulDatePosts : List Post :=
  [{ title := "Undated", url := "/undated", date := none, tags := .undefined },
   { title := "Dated", url := "/dated", date := some (String.mk [Char.ofNat 0]),
     tags := .undefined }]

/-- A sample index: three posts, the second without a date and with its tags
as a comma-separated string. -/
def samplePosts : List Post :=
  [{ title := "Old", url := "/old", date := some "2023-05-01", tags := .array ["A", "B"] },
   { title := "Undated", url := "/undated", date := none, tags := .string "B, A" },
   { title := "New", url := "/new", date := some "2024-01-15", tags := .array ["C", "A", "B"] }]

/-- A sample index in which the empty string is a tag, at sorted position 5:
five tags occur twice and the empty tag once. -/
def emptyTagPosts : List Post :=
  [{ title := "1", url := "/1", date := none, tags := .array ["a", "b", "c", "d", "e"] },
   { title := "2", url := "/2", date := none, tags := .array ["a", "b", "c", "d", "e", ""] }]

/-- A sample index with seven distinct tags of one occurrence each. -/
def sevenTagPosts : List Post :=
  [{ title := "1", url := "/1", date := some "2024-02-01",
     tags := .array ["a", "b", "c", "d", "e", "f", "g"] }]

/-! ## Lemmas on the string built-ins -/

theorem replace_step (c : Char) (rest : List Char) :
    (if reservedClass c then (entityOf c).toList ++ rest else c :: rest) =
      entitySpec c ++ rest := by
  by_cases h1 : c = '&'
  · subst h1; rfl
  by_cases h2 : c = '<'
  · subst h2; rfl
  by_cases h3 : c = '>'
  · subst h3; rfl
  by_cases h4 : c = dquote
  · subst h4; rfl
  by_cases h5 : c = squote
  · subst h5; rfl
  have hcls : reservedClass c = false := by simp [reservedClass, h1, h2, h3, h4, h5]
  simp [hcls, entitySpec, h1, h2, h3, h4, h5]

theorem replaceAll_reserved (cs : List Char) :
    replaceAll reservedClass entityOf cs = cs.flatMap entitySpec := by
  induction cs with
  | nil => rfl
  | cons c cs ih =>
    rw [replaceAll, ih, replace_step, List.flatMap_cons]

theorem trimStart_eq (cs : List Char) : trimStart cs = cs.dropWhile isWhiteSpace := by
  induction cs with
  | nil => rfl
  | cons c cs ih =>
    by_cases h : isWhiteSpace c
    · simp [trimStart, List.dropWhile, h, ih]
    · simp [trimStart, List.dropWhile, h]

theorem trimChars_eq (cs : List Char) :
    trimChars cs = (cs.dropWhile isWhiteSpace).rdropWhile isWhiteSpace := by
  simp [trimChars, trimStart_eq, List.rdropWhile]

theorem splitChars_eq (sep : Char) (cs : List Char) : splitChars sep cs = cs.splitOn sep := by
  induction cs with
  | nil => simp [splitChars, List.splitOn]
  | cons c cs ih =>
    have hne : List.splitOnP (fun x => x == sep) cs ≠ [] := List.splitOnP_ne_nil _ _
    rw [splitChars, ih]
    simp only [List.splitOn] at hne ⊢
    rw [List.splitOnP_cons]
    by_cases h : c = sep
    · simp [h]
    · have hb : (c == sep) = false := by simpa using h
      simp only [h, hb, if_false, Bool.false_eq_true]
      cases hsp : List.splitOnP (fun x => x == sep) cs with
      | nil => exact absurd hsp hne
      | cons piece rest => rfl

theorem truthy_mk (cs : List Char) : truthy (String.mk cs) = decide (cs ≠ []) := by
  cases cs <;> simp [truthy]

/-! ## Claims on `escapeHtml` and `getTags` -/

/-- C1: for every input, `escapeHtml` returns the string form of the input with
each of the five reserved characters replaced in place by its entity and every
other character kept, and it maps the sample text to the sample result. -/
theorem escapeHtml_replaces_reserved {α : Type} (toStr : α → String) (s : α) :
    escapeHtml toStr s = escapeSpec (toStr s) ∧
    escapeHtml id "<a href=\"x\">&'" = "&lt;a href=&quot;x&quot;&gt;&amp;&#39;" := by
  refine ⟨?_, by decide⟩
  simp [escapeHtml, escapeSpec, replaceAll_reserved]

/-- C5: for a post whose `tags` field is a string, `getTags` returns the pieces
between the commas, each trimmed of white space at both ends, without the
pieces that are then empty, in their order; the sample field gives a, b, c. -/
theorem getTags_string (title url : String) (date : Option String) (s : String) :
    getTags (.object { title := title, url := url, date := date, tags := .string s }) =
      tagsSpec s ∧
    getTags (.object { title := title, url := url, date := date, tags := .string "a, b ,c" }) =
      ["a", "b", "c"] := by
  constructor
  · simp only [getTags, tagsSpec, jsSplit, splitChars_eq, List.map_map, List.filter_map]
    congr 1
    · funext piece
      simp [jsTrim, trimChars_eq]
    · apply List.filter_congr
      intro piece _
      simp only [Function.comp_apply, jsTrim, truthy_mk, String.toList, trimChars_eq]
  · show ((jsSplit ',' "a, b ,c").map jsTrim).filter truthy = ["a", "b", "c"]
    decide

/-- C6: `getTags` returns a sequence for every argument, and the empty one when
the argument is `undefined` or `null`, or a post whose `tags` is neither a
string nor an array (an absent `tags` included). -/
theorem getTags_total_and_empty (P : PostRef)
    (h : P = .undefined ∨ P = .null ∨
      ∃ p, P = .object p ∧ (∀ s, p.tags ≠ .string s) ∧ (∀ items, p.tags ≠ .array items)) :
    (∃ tags : List String, getTags P = tags) ∧ getTags P = [] := by
  refine ⟨⟨_, rfl⟩, ?_⟩
  rcases h with h | h | ⟨p, hP, hs, ha⟩
  · subst h; rfl
  · subst h; rfl
  · subst hP
    unfold getTags
    cases ht : p.tags with
    | string s => exact absurd ht (hs s)
    | array items => exact absurd ht (ha items)
    | _ => simp

/-- Witness of C6: a post whose `tags` is a number has no tags. -/
theorem getTags_total_and_empty_witness :
    (∃ tags : List String,
        getTags (.object { title := "t", url := "u", date := none, tags := .number 3 }) = tags) ∧
      getTags (.object { title := "t", url := "u", date := none, tags := .number 3 }) = [] :=
  getTags_total_and_empty _
    (Or.inr (Or.inr ⟨_, rfl, fun _ h => by simp at h, fun _ h => by simp at h⟩))

/-! ## Claims on the filter of `renderPosts` -/

theorem truthy_eq_false_iff (s : String) : truthy s = false ↔ s = "" := by
  rcases s with ⟨cs⟩
  cases cs with
  | nil => exact ⟨fun _ => rfl, fun _ => rfl⟩
  | cons c cs =>
    constructor
    · intro h
      simp [truthy] at h
    · intro h
      exact absurd (congrArg String.data h) (List.cons_ne_nil c cs)

theorem isFalsy_iff (v : Option String) : isFalsy v = true ↔ v = none ∨ v = some "" := by
  cases v with
  | none => simp [isFalsy]
  | some s =>
    simp only [isFalsy, Bool.not_eq_true', truthy_eq_false_iff, Option.some.injEq,
      false_or, reduceCtorEq]

theorem keepPost_iff (filter : Option String) (p : Post) :
    keepPost Window.loaded filter p = true ↔
      (filter = none ∨ filter = some "" ∨
        ∃ f, filter = some f ∧ f ∈ getTags (.object p)) := by
  unfold keepPost
  rw [Bool.or_eq_true, isFalsy_iff]
  cases filter with
  | none => simp
  | some f =>
    simp [includes, tagsVia, Window.loaded]

/-- C2, as stated, fails: with the parameter present and empty (`?tag=`), a post
tagged only `a` is kept, although the filter is not none and the post's tags do
not contain the empty string. -/
theorem keepPost_empty_filter_counterexample :
    ¬ (keepPost Window.loaded (some "")
          { title := "t", url := "u", date := none, tags := .array ["a"] } = true ↔
        ((some "" : Option String) = none ∨
          "" ∈ getTags (.object { title := "t", url := "u", date := none, tags := .array ["a"] }))) := by
  decide

/-- C2, amended: `renderPosts` keeps a post if and only if the `tag` parameter is
absent, or present with an empty value, or equal to one of the post's extracted
tags; the kept posts are those posts, in their order. -/
theorem renderPosts_keeps_iff (filter : Option String) (posts : List Post) :
    (∀ p, p ∈ shownPosts Window.loaded filter posts ↔
      p ∈ posts ∧ (filter = none ∨ filter = some "" ∨
        ∃ f, filter = some f ∧ f ∈ getTags (.object p))) ∧
    (shownPosts Window.loaded filter posts).Sublist posts := by
  constructor
  · intro p
    simp only [shownPosts, List.mem_filter, keepPost_iff]
  · exact List.filter_sublist _

/-! ## Claims on `loadIndex` -/

/-- C10: when the response of the fetch is not `ok`, and the posts container
exists, `loadIndex` does not throw, enters neither `renderTags` nor
`renderPosts`, leaves the tag navigation as it was, and sets the posts container
to the failure paragraph, which contains the fixed message of the thrown error. -/
theorem loadIndex_not_ok (host : Host) (tag : Option String)
    (json : Except String (List Post)) (st : State) (content : PostsContent)
    (hposts : st.dom.posts = some content) :
    (loadIndex host tag (.response false json) st).thrown = none ∧
    (loadIndex host tag (.response false json) st).state.calls = st.calls ∧
    (loadIndex host tag (.response false json) st).state.dom.tagNav = st.dom.tagNav ∧
    (loadIndex host tag (.response false json) st).state.window.__getTags =
      st.window.__getTags ∧
    (loadIndex host tag (.response false json) st).state.dom.posts =
      some (.html ("<p class=\"loading\">加载失败：" ++ "无法加载 index.json" ++ "</p>")) := by
  simp [loadIndex, loadIndexTry, loadIndexCatch, hposts]

/-- Witness of C10: a page with an empty tag navigation and a loading notice in
the posts container, and a response with status 500 and an unparsable body. -/
theorem loadIndex_not_ok_witness :
    (loadIndex ⟨fun _ _ => 0, id, "null"⟩ none (.response false (.error "Unexpected token"))
        ⟨⟨none⟩, ⟨some (.page ""), some (.html "loading")⟩, []⟩).thrown = none ∧
    (loadIndex ⟨fun _ _ => 0, id, "null"⟩ none (.response false (.error "Unexpected token"))
        ⟨⟨none⟩, ⟨some (.page ""), some (.html "loading")⟩, []⟩).state.calls = [] ∧
    (loadIndex ⟨fun _ _ => 0, id, "null"⟩ none (.response false (.error "Unexpected token"))
        ⟨⟨none⟩, ⟨some (.page ""), some (.html "loading")⟩, []⟩).state.dom.tagNav =
      some (.page "") ∧
    (loadIndex ⟨fun _ _ => 0, id, "null"⟩ none (.response false (.error "Unexpected token"))
        ⟨⟨none⟩, ⟨some (.page ""), some (.html "loading")⟩, []⟩).state.window.__getTags =
      none ∧
    (loadIndex ⟨fun _ _ => 0, id, "null"⟩ none (.response false (.error "Unexpected token"))
        ⟨⟨none⟩, ⟨some (.page ""), some (.html "loading")⟩, []⟩).state.dom.posts =
      some (.html ("<p class=\"loading\">加载失败：" ++ "无法加载 index.json" ++ "</p>")) :=
  loadIndex_not_ok ⟨fun _ _ => 0, id, "null"⟩ none (.error "Unexpected token")
    ⟨⟨none⟩, ⟨some (.page ""), some (.html "loading")⟩, []⟩ (.html "loading") rfl

/-! ## The tag-count map -/

theorem TagMap.get_set (m : TagMap) (k : String) (v : Nat) (k' : String) :
    TagMap.get (TagMap.set m k v) k' = if k = k' then some v else TagMap.get m k' := by
  induction m with
  | nil => simp [TagMap.set, TagMap.get]
  | cons e rest ih =>
    obtain ⟨k0, v0⟩ := e
    by_cases h : k0 = k
    · subst h
      by_cases h' : k0 = k' <;> simp [TagMap.set, TagMap.get, h']
    · by_cases h' : k0 = k'
      · subst h'
        simp [TagMap.set, TagMap.get, h, Ne.symm h]
      · simp [TagMap.set, TagMap.get, h, h', ih]

theorem TagMap.keys_set (m : TagMap) (k : String) (v : Nat) :
    TagMap.keys (TagMap.set m k v) =
      if k ∈ TagMap.keys m then TagMap.keys m else TagMap.keys m ++ [k] := by
  induction m with
  | nil => simp [TagMap.set, TagMap.keys]
  | cons e rest ih =>
    obtain ⟨k0, v0⟩ := e
    simp only [TagMap.keys] at ih ⊢
    by_cases h : k0 = k
    · subst h
      simp [TagMap.set]
    · have h' : ¬ k = k0 := fun e => h e.symm
      simp only [TagMap.set, h, if_false, List.map_cons, ih, List.mem_cons, h', false_or]
      split <;> simp

theorem TagMap.get_eq_none_iff (m : TagMap) (k : String) :
    TagMap.get m k = none ↔ k ∉ TagMap.keys m := by
  induction m with
  | nil => simp [TagMap.get, TagMap.keys]
  | cons e rest ih =>
    obtain ⟨k0, v0⟩ := e
    simp only [TagMap.keys] at ih ⊢
    by_cases h : k0 = k
    · simp [TagMap.get, h]
    · have h' : ¬ k = k0 := fun e => h e.symm
      simp [TagMap.get, h, h', ih]

theorem TagMap.mem_iff_get (m : TagMap) (hnd : (TagMap.keys m).Nodup) (k : String) (v : Nat) :
    (k, v) ∈ m ↔ TagMap.get m k = some v := by
  induction m with
  | nil => simp [TagMap.get]
  | cons e rest ih =>
    obtain ⟨k0, v0⟩ := e
    simp only [TagMap.keys, List.map_cons, List.nodup_cons] at hnd
    have ih := ih hnd.2
    by_cases h : k0 = k
    · subst h
      have hnot : (k0, v) ∉ rest := fun hm => hnd.1 (List.mem_map_of_mem Prod.fst hm)
      simp only [List.mem_cons, Prod.mk.injEq, true_and, hnot, or_false, TagMap.get, if_true,
        Option.some.injEq]
      exact eq_comm
    · have h' : ¬ k = k0 := fun e => h e.symm
      simp [TagMap.get, h, h', ih]

theorem bump_counts_sum (m : TagMap) (t : String) :
    (TagMap.counts (bump m t)).sum = (TagMap.counts m).sum + 1 := by
  unfold bump
  induction m with
  | nil => simp [TagMap.set, TagMap.get, TagMap.counts]
  | cons e rest ih =>
    obtain ⟨k0, v0⟩ := e
    simp only [TagMap.counts] at ih ⊢
    by_cases h : k0 = t
    · simp [TagMap.set, TagMap.get, h]
      omega
    · simp only [TagMap.set, TagMap.get, h, if_false, List.map_cons, List.sum_cons, ih]
      omega

theorem buildTagMap_eq_foldl (posts : List Post) :
    buildTagMap Window.loaded posts = (allTags posts).foldl bump [] := by
  unfold buildTagMap allTags
  generalize ([] : TagMap) = m
  induction posts generalizing m with
  | nil => rfl
  | cons p ps ih =>
    simp only [List.foldl_cons, List.flatMap_cons, List.foldl_append]
    rw [ih]
    rfl

theorem foldl_bump_get (ts : List String) (k : String) :
    TagMap.get (ts.foldl bump []) k = if ts.count k = 0 then none else some (ts.count k) := by
  induction ts using List.reverseRecOn with
  | nil => simp [TagMap.get]
  | append_singleton pre t ih =>
    rw [List.foldl_append, List.foldl_cons, List.foldl_nil, bump, TagMap.get_set,
      List.count_append, List.count_singleton]
    by_cases h : t = k
    · subst h
      by_cases hc : List.count t pre = 0
      · simp [ih, hc]
      · simp [ih, hc]
    · have h' : ¬ k = t := fun e => h e.symm
      simp [h, h', ih]

theorem foldl_bump_nodup (ts : List String) : (TagMap.keys (ts.foldl bump [])).Nodup := by
  induction ts using List.reverseRecOn with
  | nil => simp [TagMap.keys]
  | append_singleton pre t ih =>
    rw [List.foldl_append, List.foldl_cons, List.foldl_nil, bump, TagMap.keys_set]
    split
    · exact ih
    · rename_i hnot
      exact List.Nodup.append ih (List.nodup_singleton t) (by simpa using hnot)

theorem foldl_bump_counts_sum (ts : List String) :
    (TagMap.counts (ts.foldl bump [])).sum = ts.length := by
  induction ts using List.reverseRecOn with
  | nil => simp [TagMap.counts]
  | append_singleton pre t ih =>
    rw [List.foldl_append, List.foldl_cons, List.foldl_nil, bump_counts_sum, ih]
    simp

theorem foldl_bump_mem_keys (ts : List String) (k : String) :
    k ∈ TagMap.keys (ts.foldl bump []) ↔ k ∈ ts := by
  have h := TagMap.get_eq_none_iff (ts.foldl bump []) k
  rw [foldl_bump_get] at h
  by_cases hc : ts.count k = 0
  · simp only [hc, if_true, true_iff] at h
    simp [h, List.count_eq_zero.mp hc]
  · simp only [hc, if_false, reduceCtorEq, false_iff, not_not] at h
    have : k ∈ ts := by
      by_contra hk
      exact hc (List.count_eq_zero.mpr hk)
    simp [h, this]

theorem buildTagMap_mem_iff (posts : List Post) (t : String) (c : Nat) :
    (t, c) ∈ buildTagMap Window.loaded posts ↔ t ∈ allTags posts ∧ c = (allTags posts).count t := by
  rw [buildTagMap_eq_foldl, TagMap.mem_iff_get _ (foldl_bump_nodup _), foldl_bump_get]
  by_cases hc : (allTags posts).count t = 0
  · have hnot : t ∉ allTags posts := List.count_eq_zero.mp hc
    simp [hc, hnot]
  · have hin : t ∈ allTags posts := by
      by_contra hk
      exact hc (List.count_eq_zero.mpr hk)
    simp only [hc, if_false, Option.some.injEq, hin, true_and]
    exact eq_comm

/-- C7: the tag-count map of `renderTags` has every distinct tag exactly once as
a key, the keys are the tags that occur, each count is the number of occurrences
of its tag in the extracted tag lists of all posts and at least 1, and the
counts add up to the number of (post, tag) occurrences. -/
theorem tagMap_counts_occurrences (posts : List Post) :
    (TagMap.keys (buildTagMap Window.loaded posts)).Nodup ∧
    (∀ t, t ∈ TagMap.keys (buildTagMap Window.loaded posts) ↔ t ∈ allTags posts) ∧
    (∀ t c, (t, c) ∈ buildTagMap Window.loaded posts →
      c = (allTags posts).count t ∧ 1 ≤ c) ∧
    (∀ t, t ∈ allTags posts →
      (t, (allTags posts).count t) ∈ buildTagMap Window.loaded posts) ∧
    (TagMap.counts (buildTagMap Window.loaded posts)).sum = (allTags posts).length ∧
    (allTags posts).length ≤ (TagMap.counts (buildTagMap Window.loaded posts)).sum := by
  refine ⟨?_, ?_, ?_, ?_, ?_, ?_⟩
  · rw [buildTagMap_eq_foldl]
    exact foldl_bump_nodup _
  · intro t
    rw [buildTagMap_eq_foldl]
    exact foldl_bump_mem_keys _ t
  · intro t c h
    obtain ⟨hin, hc⟩ := (buildTagMap_mem_iff posts t c).mp h
    exact ⟨hc, hc ▸ List.count_pos_iff.mpr hin⟩
  · intro t h
    exact (buildTagMap_mem_iff posts t _).mpr ⟨h, rfl⟩
  · rw [buildTagMap_eq_foldl]
    exact foldl_bump_counts_sum _
  · rw [buildTagMap_eq_foldl, foldl_bump_counts_sum]

/-! ## Sorting -/

theorem jsSort_perm {α : Type} (cmp : α → α → Int) (l : List α) : (jsSort cmp l).Perm l :=
  List.perm_insertionSort _ l

theorem jsSort_pairwise {α : Type} (cmp : α → α → Int)
    (htot : ∀ a b, cmp a b ≤ 0 ∨ cmp b a ≤ 0)
    (htr : ∀ a b c, cmp a b ≤ 0 → cmp b c ≤ 0 → cmp a c ≤ 0) (l : List α) :
    (jsSort cmp l).Pairwise (fun a b => cmp a b ≤ 0) := by
  haveI : IsTotal α (fun a b => cmp a b ≤ 0) := ⟨htot⟩
  haveI : IsTrans α (fun a b => cmp a b ≤ 0) := ⟨htr⟩
  exact List.sorted_insertionSort (fun a b => cmp a b ≤ 0) l

theorem jsSort_stable {α : Type} (cmp : α → α → Int) {c l : List α}
    (hc : c.Pairwise (fun a b => cmp a b ≤ 0)) (hs : c.Sublist l) :
    c.Sublist (jsSort cmp l) :=
  List.sublist_insertionSort hc hs

theorem Host.Consistent.total {host : Host} (hc : host.Consistent) (a b : String) :
    host.localeCompare a b ≤ 0 ∨ host.localeCompare b a ≤ 0 := by
  by_cases h : host.localeCompare a b ≤ 0
  · exact Or.inl h
  · right
    have := (hc.flip a b).mp (by omega)
    omega

theorem Host.Consistent.self {host : Host} (hc : host.Consistent) (a : String) :
    host.localeCompare a a = 0 := by
  have h1 := hc.flip a a
  omega

theorem tagCompare_le_iff (host : Host) (a b : String × Nat) :
    tagCompare host a b ≤ 0 ↔
      (b.2 < a.2 ∨ (a.2 = b.2 ∧ host.localeCompare a.1 b.1 ≤ 0)) := by
  unfold tagCompare
  by_cases h : ((b.2 : Int) - (a.2 : Int)) ≠ 0
  · simp only [h, if_true]
    omega
  · simp only [h, if_false]
    have : a.2 = b.2 := by omega
    simp [this]

theorem tagCompare_total {host : Host} (hc : host.Consistent) (a b : String × Nat) :
    tagCompare host a b ≤ 0 ∨ tagCompare host b a ≤ 0 := by
  simp only [tagCompare_le_iff]
  rcases hc.total a.1 b.1 with h | h
  · by_cases h1 : b.2 < a.2
    · exact Or.inl (Or.inl h1)
    · by_cases h2 : a.2 < b.2
      · exact Or.inr (Or.inl h2)
      · exact Or.inl (Or.inr ⟨by omega, h⟩)
  · by_cases h1 : b.2 < a.2
    · exact Or.inl (Or.inl h1)
    · by_cases h2 : a.2 < b.2
      · exact Or.inr (Or.inl h2)
      · exact Or.inr (Or.inr ⟨by omega, h⟩)

theorem tagCompare_trans {host : Host} (hc : host.Consistent) (a b c : String × Nat) :
    tagCompare host a b ≤ 0 → tagCompare host b c ≤ 0 → tagCompare host a c ≤ 0 := by
  simp only [tagCompare_le_iff]
  rintro (h1 | ⟨e1, l1⟩) (h2 | ⟨e2, l2⟩)
  · exact Or.inl (by omega)
  · exact Or.inl (by omega)
  · exact Or.inl (by omega)
  · exact Or.inr ⟨by omega, hc.trans _ _ _ l1 l2⟩

theorem sortedTags_perm (host : Host) (posts : List Post) :
    (sortedTags host Window.loaded posts).Perm (buildTagMap Window.loaded posts) :=
  jsSort_perm _ _

theorem sortedTags_keys_nodup (host : Host) (posts : List Post) :
    ((sortedTags host Window.loaded posts).map Prod.fst).Nodup := by
  have h := (sortedTags_perm host posts).map Prod.fst
  rw [h.nodup_iff, buildTagMap_eq_foldl]
  exact foldl_bump_nodup _

theorem sortedTags_length (host : Host) (posts : List Post) :
    (sortedTags host Window.loaded posts).length = (allTags posts).dedup.length := by
  have h1 := ((sortedTags_perm host posts).map Prod.fst).length_eq
  simp only [List.length_map] at h1
  rw [h1]
  have hnd : (TagMap.keys (buildTagMap Window.loaded posts)).Nodup := by
    rw [buildTagMap_eq_foldl]
    exact foldl_bump_nodup _
  have hp : (TagMap.keys (buildTagMap Window.loaded posts)).Perm (allTags posts).dedup := by
    rw [List.perm_ext_iff_of_nodup hnd (List.nodup_dedup _)]
    intro t
    rw [buildTagMap_eq_foldl, foldl_bump_mem_keys, List.mem_dedup]
  have := hp.length_eq
  simpa [TagMap.keys] using this

theorem compareChars_flip (a b : List Char) : compareChars b a = - compareChars a b := by
  induction a generalizing b with
  | nil => cases b <;> simp [compareChars]
  | cons x xs ih =>
    cases b with
    | nil => simp [compareChars]
    | cons y ys =>
      simp only [compareChars]
      split_ifs <;> first | omega | simp | exact ih ys

theorem compareChars_trans (a b c : List Char) :
    compareChars a b ≤ 0 → compareChars b c ≤ 0 → compareChars a c ≤ 0 := by
  induction a generalizing b c with
  | nil => cases c <;> simp [compareChars]
  | cons x xs ih =>
    cases b with
    | nil => simp [compareChars]
    | cons y ys =>
      cases c with
      | nil => simp [compareChars]
      | cons z zs =>
        simp only [compareChars]
        split_ifs <;> first | omega | simp | exact ih ys zs

theorem lexHost_consistent : lexHost.Consistent := by
  constructor
  · intro a b
    simp only [lexHost]
    rw [compareChars_flip a.toList b.toList]
    omega
  · intro a b c
    exact compareChars_trans a.toList b.toList c.toList

theorem collationHost_consistent : collationHost.Consistent := by
  constructor
  · intro a b
    simp only [collationHost, collationCompare]
    have h1 := compareChars_flip (primaryKey a.toList) (primaryKey b.toList)
    have h2 := compareChars_flip (weighted a.toList) (weighted b.toList)
    split_ifs <;> omega
  · intro a b c
    simp only [collationHost, collationCompare]
    have f1 := compareChars_flip (primaryKey a.toList) (primaryKey b.toList)
    have f2 := compareChars_flip (primaryKey b.toList) (primaryKey c.toList)
    have f3 := compareChars_flip (primaryKey a.toList) (primaryKey c.toList)
    have t1 := compareChars_trans (primaryKey a.toList) (primaryKey b.toList)
      (primaryKey c.toList)
    have t2 := compareChars_trans (primaryKey b.toList) (primaryKey c.toList)
      (primaryKey a.toList)
    have t3 := compareChars_trans (primaryKey c.toList) (primaryKey a.toList)
      (primaryKey b.toList)
    have g1 := compareChars_flip (weighted a.toList) (weighted b.toList)
    have g2 := compareChars_flip (weighted b.toList) (weighted c.toList)
    have g3 := compareChars_flip (weighted a.toList) (weighted c.toList)
    have u1 := compareChars_trans (weighted c.toList) (weighted b.toList) (weighted a.toList)
    split_ifs <;> intro h1 h2 <;> omega

theorem mem_sortedTags_iff (host : Host) (posts : List Post) (e : String × Nat) :
    e ∈ sortedTags host Window.loaded posts ↔
      e.1 ∈ allTags posts ∧ e.2 = (allTags posts).count e.1 := by
  rw [(sortedTags_perm host posts).mem_iff]
  exact buildTagMap_mem_iff posts e.1 e.2

theorem sortedTags_pairwise {host : Host} (hc : host.Consistent) (posts : List Post) :
    (sortedTags host Window.loaded posts).Pairwise (tagOrder host) := by
  have h := jsSort_pairwise (tagCompare host) (tagCompare_total hc) (tagCompare_trans hc)
    (buildTagMap Window.loaded posts)
  refine h.imp ?_
  intro a b hab
  exact (tagCompare_le_iff host a b).mp hab

theorem sortedTags_example {host : Host} (hc : host.Consistent)
    (hAB : host.localeCompare "A" "B" < 0) (posts : List Post)
    (hcnt : ∀ t, (allTags posts).count t =
      if t = "A" then 3 else if t = "B" then 3 else if t = "C" then 1 else 0) :
    sortedTags host Window.loaded posts = [("A", 3), ("B", 3), ("C", 1)] := by
  have hBA : 0 < host.localeCompare "B" "A" := (hc.flip "B" "A").mpr hAB
  have hmem : ∀ e : String × Nat, e ∈ sortedTags host Window.loaded posts ↔
      e ∈ [(("A", 3) : String × Nat), ("B", 3), ("C", 1)] := by
    rintro ⟨t, c⟩
    rw [mem_sortedTags_iff]
    have hin : t ∈ allTags posts ↔ 0 < (allTags posts).count t := List.count_pos_iff.symm
    simp only [hin, hcnt t, List.mem_cons, Prod.mk.injEq, List.mem_singleton, List.not_mem_nil,
      or_false]
    by_cases h1 : t = "A"
    · subst h1; simp
    by_cases h2 : t = "B"
    · subst h2; simp
    by_cases h3 : t = "C"
    · subst h3; simp
    simp [h1, h2, h3]
  have hnd : (sortedTags host Window.loaded posts).Nodup :=
    List.Nodup.of_map _ (sortedTags_keys_nodup host posts)
  have hT : ([(("A", 3) : String × Nat), ("B", 3), ("C", 1)]).Nodup := by decide
  have hperm := (List.perm_ext_iff_of_nodup hnd hT).mpr hmem
  have hlen := hperm.length_eq
  have hpw := sortedTags_pairwise hc posts
  generalize sortedTags host Window.loaded posts = S at *
  match S, hlen with
  | [x, y, z], _ =>
    have hx := (hmem x).mp (by simp)
    have hy := (hmem y).mp (by simp)
    have hz := (hmem z).mp (by simp)
    simp only [List.pairwise_cons, List.mem_cons, List.mem_singleton, forall_eq_or_imp,
      forall_eq, List.not_mem_nil, false_implies, implies_true, and_true,
      List.Pairwise.nil] at hpw
    simp only [List.nodup_cons, List.mem_cons, List.mem_singleton, not_or, List.not_mem_nil,
      not_false_eq_true, List.nodup_nil, and_true] at hnd
    simp only [List.mem_cons, List.mem_singleton, List.not_mem_nil, or_false] at hx hy hz
    obtain ⟨⟨hxy, hxz⟩, hyz⟩ := hpw
    obtain ⟨⟨nxy, nxz⟩, nyz⟩ := hnd
    rcases hx with rfl | rfl | rfl <;> rcases hy with rfl | rfl | rfl <;>
      rcases hz with rfl | rfl | rfl <;>
      first
        | rfl
        | exact absurd rfl nxy
        | exact absurd rfl nxz
        | exact absurd rfl nyz
        | (exfalso; simp only [tagOrder] at hxy hxz hyz; omega)

theorem jsSort_filter_eq {α : Type} (cmp : α → α → Int) (P : α → Bool) (l : List α)
    (hP : ∀ a b, P a = true → P b = true → cmp a b ≤ 0) :
    (jsSort cmp l).filter P = l.filter P := by
  have hpw : (l.filter P).Pairwise (fun a b => cmp a b ≤ 0) := by
    rw [List.pairwise_iff_forall_sublist]
    intro a b hab
    have ha : a ∈ l.filter P := hab.subset (by simp)
    have hb : b ∈ l.filter P := hab.subset (by simp)
    exact hP a b (List.mem_filter.mp ha).2 (List.mem_filter.mp hb).2
  have hsub : (l.filter P).Sublist (jsSort cmp l) := jsSort_stable cmp hpw (List.filter_sublist l)
  have hsub2 : (l.filter P).Sublist ((jsSort cmp l).filter P) := by
    have := hsub.filter P
    simpa [List.filter_filter] using this
  have hlen : (l.filter P).length = ((jsSort cmp l).filter P).length :=
    ((jsSort_perm cmp l).filter P).length_eq.symm
  exact (hsub2.eq_of_length hlen).symm

theorem Host.Consistent.zero_symm {host : Host} (hc : host.Consistent) (a b : String)
    (h : host.localeCompare a b = 0) : host.localeCompare b a = 0 := by
  have h1 := hc.flip a b
  have h2 := hc.flip b a
  omega

/-- C4, as stated, fails: under a host that compares as the browsers' default
collation does, the tags `B` and `a` of equal count are ordered a, B, although B
is lexicographically before a; and two distinct tags that differ by a NUL
character compare equal, so they stay in insertion order, against the
lexicographic order, and the order of the entries is not antisymmetric. -/
theorem sortedTags_lexicographic_counterexample :
    sortedTags collationHost Window.loaded caseTagPosts = [("a", 1), ("B", 1)] ∧
    compareChars "B".toList "a".toList < 0 ∧
    ¬ (sortedTags collationHost Window.loaded caseTagPosts).Pairwise (tagOrder lexHost) ∧
    sortedTags collationHost Window.loaded nulTagPosts =
      [(String.mk ['x', Char.ofNat 0], 1), ("x", 1)] ∧
    ¬ (sortedTags collationHost Window.loaded nulTagPosts).Pairwise (tagOrder lexHost) ∧
    tagOrder collationHost (String.mk ['x', Char.ofNat 0], 1) ("x", 1) ∧
    tagOrder collationHost ("x", 1) (String.mk ['x', Char.ofNat 0], 1) ∧
    (String.mk ['x', Char.ofNat 0], 1) ≠ (("x", 1) : String × Nat) := by
  have h1 : sortedTags collationHost Window.loaded caseTagPosts = [("a", 1), ("B", 1)] := by
    decide
  have h2 : sortedTags collationHost Window.loaded nulTagPosts =
      [(String.mk ['x', Char.ofNat 0], 1), ("x", 1)] := by
    decide
  refine ⟨h1, by decide, ?_, h2, ?_, ?_, ?_, by decide⟩
  · rw [h1]
    intro hp
    have h := List.rel_of_pairwise_cons hp (List.mem_singleton.mpr rfl)
    revert h
    unfold tagOrder
    decide
  · rw [h2]
    intro hp
    have h := List.rel_of_pairwise_cons hp (List.mem_singleton.mpr rfl)
    revert h
    unfold tagOrder
    decide
  · unfold tagOrder
    decide
  · unfold tagOrder
    decide

/-- C4, amended: for a host whose `localeCompare` is a consistent comparator,
the (tag, count) sequence of `renderTags` is a permutation of the map's entries
ordered by descending count and, among equal counts, ascending in the host's
`localeCompare`; that order is total and transitive, and entries of equal count
whose tags the host compares equal keep their insertion order; for occurrence
counts A:3, B:3, C:1, with A before B in the host's comparison, the sequence is
(A,3), (B,3), (C,1). -/
theorem sortedTags_ordered (host : Host) (hc : host.Consistent) (posts : List Post) :
    (∀ a b, tagOrder host a b ∨ tagOrder host b a) ∧
    (∀ a b c, tagOrder host a b → tagOrder host b c → tagOrder host a c) ∧
    (sortedTags host Window.loaded posts).Pairwise (tagOrder host) ∧
    (sortedTags host Window.loaded posts).Perm (buildTagMap Window.loaded posts) ∧
    (∀ x : String × Nat,
      (sortedTags host Window.loaded posts).filter
          (fun e => decide (e.2 = x.2 ∧ host.localeCompare e.1 x.1 = 0)) =
        (buildTagMap Window.loaded posts).filter
          (fun e => decide (e.2 = x.2 ∧ host.localeCompare e.1 x.1 = 0))) ∧
    (host.localeCompare "A" "B" < 0 →
      (∀ t, (allTags posts).count t =
        if t = "A" then 3 else if t = "B" then 3 else if t = "C" then 1 else 0) →
      sortedTags host Window.loaded posts = [("A", 3), ("B", 3), ("C", 1)]) := by
  refine ⟨?_, ?_, sortedTags_pairwise hc posts, sortedTags_perm host posts, ?_, ?_⟩
  · intro a b
    have h := tagCompare_total hc a b
    simpa only [tagCompare_le_iff] using h
  · intro a b c h1 h2
    have h := tagCompare_trans hc a b c ((tagCompare_le_iff host a b).mpr h1)
      ((tagCompare_le_iff host b c).mpr h2)
    exact (tagCompare_le_iff host a c).mp h
  · intro x
    apply jsSort_filter_eq
    intro a b ha hb
    simp only [decide_eq_true_eq] at ha hb
    rw [tagCompare_le_iff]
    right
    refine ⟨by omega, ?_⟩
    have hxb := hc.zero_symm _ _ hb.2
    exact hc.trans a.1 x.1 b.1 (by omega) (by omega)
  · intro hAB hcnt
    exact sortedTags_example hc hAB posts hcnt

/-- Witness of C4: three posts, one with a comma-separated `tags` string, whose
tags occur A:3, B:3, C:1, under the collation host. -/
theorem sortedTags_ordered_witness :
    sortedTags collationHost Window.loaded
      [{ title := "1", url := "/1", date := none, tags := .array ["A", "B"] },
       { title := "2", url := "/2", date := none, tags := .string "B, A" },
       { title := "3", url := "/3", date := none, tags := .array ["C", "A", "B"] }] =
      [("A", 3), ("B", 3), ("C", 1)] := by
  have hAB : collationHost.localeCompare "A" "B" < 0 := by decide
  refine (sortedTags_ordered collationHost collationHost_consistent _).2.2.2.2.2 hAB ?_
  intro t
  have hall : allTags
      [{ title := "1", url := "/1", date := none, tags := .array ["A", "B"] },
       { title := "2", url := "/2", date := none, tags := .string "B, A" },
       { title := "3", url := "/3", date := none, tags := .array ["C", "A", "B"] }] =
      ["A", "B", "B", "A", "C", "A", "B"] := by decide
  rw [hall]
  by_cases h1 : t = "A"
  · subst h1; decide
  by_cases h2 : t = "B"
  · subst h2; decide
  by_cases h3 : t = "C"
  · subst h3; decide
  have h1' : ¬ "A" = t := fun e => h1 e.symm
  have h2' : ¬ "B" = t := fun e => h2 e.symm
  have h3' : ¬ "C" = t := fun e => h3 e.symm
  simp [List.count_cons, h1, h2, h3, h1', h2', h3']

/-! ## Claims on the order of the directory -/

theorem dateCompare_total {host : Host} (hc : host.Consistent) (a b : Post) :
    dateCompare host a b ≤ 0 ∨ dateCompare host b a ≤ 0 :=
  hc.total (dateOr b) (dateOr a)

theorem dateCompare_trans {host : Host} (hc : host.Consistent) (a b c : Post) :
    dateCompare host a b ≤ 0 → dateCompare host b c ≤ 0 → dateCompare host a c ≤ 0 :=
  fun h1 h2 => hc.trans (dateOr c) (dateOr b) (dateOr a) h2 h1

theorem dateOr_of_none (p : Post) (h : p.date = none) : dateOr p = "" := by
  simp [dateOr, h]

theorem dateOr_of_some (p : Post) (d : String) (h : p.date = some d) : dateOr p = d := by
  simp only [dateOr, h]
  by_cases ht : truthy d = true
  · simp [ht]
  · have hf : truthy d = false := by simpa using ht
    simp only [hf, Bool.false_eq_true, if_false]
    exact ((truthy_eq_false_iff d).mp hf).symm

/-- C3, as stated, fails: under a host that compares as the browsers' default
collation does, the post dated `March 2024` is rendered before the post dated
`april 2024`, which is lexicographically the greater date; and a post without a
date stays before a post whose date is a single NUL character, a non-empty date
that compares equal to the empty string. -/
theorem renderPosts_lexicographic_counterexample :
    postsView collationHost Window.loaded none monthPosts =
      .directory ((sortedShown collationHost Window.loaded none monthPosts).map dirItem) ∧
    (sortedShown collationHost Window.loaded none monthPosts).map Post.title =
      ["Winter", "Spring"] ∧
    ¬ (sortedShown collationHost Window.loaded none monthPosts).Pairwise lexDateOrder ∧
    (sortedShown collationHost Window.loaded none nulDatePosts).map Post.title =
      ["Undated", "Dated"] ∧
    ¬ (sortedShown collationHost Window.loaded none nulDatePosts).Pairwise
      (fun a b => a.date = none → ∀ d, b.date = some d → d = "") := by
  have h1 : sortedShown collationHost Window.loaded none monthPosts =
      [{ title := "Winter", url := "/winter", date := some "March 2024", tags := .undefined },
       { title := "Spring", url := "/spring", date := some "april 2024", tags := .undefined }] := by
    decide
  have h2 : sortedShown collationHost Window.loaded none nulDatePosts = nulDatePosts := by
    decide
  refine ⟨by decide, by decide, ?_, by decide, ?_⟩
  · rw [h1]
    intro hp
    have h := List.rel_of_pairwise_cons hp (List.mem_singleton.mpr rfl)
    revert h
    unfold lexDateOrder
    decide
  · rw [h2]
    intro hp
    have h := List.rel_of_pairwise_cons hp (List.mem_singleton.mpr rfl)
    have hd := h rfl (String.mk [Char.ofNat 0]) rfl
    revert hd
    decide

/-- C3, amended: for a host whose `localeCompare` is a consistent comparator,
when some post is kept the directory items are the items of the kept posts in
sorted order: a permutation of the kept posts, descending in the date (a missing
date read as the empty string) under the host's `localeCompare`, no post without
a date before a post whose date the host compares after the empty string (so
every post without a date after every post with a non-empty date when the host
compares every non-empty string after the empty one), and the posts whose dates
the host compares equal, those of equal date among them, in their original
relative order. -/
theorem renderPosts_sorted_by_date (host : Host) (hc : host.Consistent)
    (filter : Option String) (posts : List Post)
    (hne : shownPosts Window.loaded filter posts ≠ []) :
    postsView host Window.loaded filter posts =
      .directory ((sortedShown host Window.loaded filter posts).map dirItem) ∧
    (sortedShown host Window.loaded filter posts).Perm (shownPosts Window.loaded filter posts) ∧
    (sortedShown host Window.loaded filter posts).Pairwise
      (fun a b => host.localeCompare (dateOr b) (dateOr a) ≤ 0) ∧
    (sortedShown host Window.loaded filter posts).Pairwise
      (fun a b => a.date = none → ¬ 0 < host.localeCompare (dateOr b) "") ∧
    (∀ d, (sortedShown host Window.loaded filter posts).filter
        (fun p => decide (host.localeCompare (dateOr p) d = 0)) =
      (shownPosts Window.loaded filter posts).filter
        (fun p => decide (host.localeCompare (dateOr p) d = 0))) ∧
    (∀ d, (sortedShown host Window.loaded filter posts).filter (fun p => decide (dateOr p = d)) =
      (shownPosts Window.loaded filter posts).filter (fun p => decide (dateOr p = d))) ∧
    ((∀ s, s ≠ "" → 0 < host.localeCompare s "") →
      (sortedShown host Window.loaded filter posts).Pairwise
        (fun a b => a.date = none → ∀ d, b.date = some d → d = "")) := by
  have hsorted : (sortedShown host Window.loaded filter posts).Pairwise
      (fun a b => host.localeCompare (dateOr b) (dateOr a) ≤ 0) :=
    jsSort_pairwise (dateCompare host) (dateCompare_total hc) (dateCompare_trans hc) _
  refine ⟨?_, jsSort_perm _ _, hsorted, ?_, ?_, ?_, ?_⟩
  · have hlen : (shownPosts Window.loaded filter posts).length ≠ 0 := by
      simpa [List.length_eq_zero] using hne
    simp [postsView, hlen]
  · refine hsorted.imp ?_
    intro a b hab ha
    rw [dateOr_of_none a ha] at hab
    omega
  · intro d
    apply jsSort_filter_eq
    intro a b ha hb
    simp only [decide_eq_true_eq] at ha hb
    show host.localeCompare (dateOr b) (dateOr a) ≤ 0
    have hda := hc.zero_symm _ _ ha
    exact hc.trans (dateOr b) d (dateOr a) (by omega) (by omega)
  · intro d
    apply jsSort_filter_eq
    intro a b ha hb
    have ha' : dateOr a = d := by simpa using ha
    have hb' : dateOr b = d := by simpa using hb
    show host.localeCompare (dateOr b) (dateOr a) ≤ 0
    rw [ha', hb', hc.self]
  · intro hempty
    refine hsorted.imp ?_
    intro a b hab ha d hb
    by_contra hd
    rw [dateOr_of_none a ha, dateOr_of_some b d hb] at hab
    have := hempty d hd
    omega

/-- Witness of C3: an index of three posts, one without a date, no filter, under
the collation host; the directory shows them as New, Old, Undated. -/
theorem renderPosts_sorted_by_date_witness :
    (postsView collationHost Window.loaded none samplePosts =
      .directory ((sortedShown collationHost Window.loaded none samplePosts).map dirItem) ∧
    (sortedShown collationHost Window.loaded none samplePosts).Perm
      (shownPosts Window.loaded none samplePosts) ∧
    (sortedShown collationHost Window.loaded none samplePosts).Pairwise
      (fun a b => collationHost.localeCompare (dateOr b) (dateOr a) ≤ 0) ∧
    (sortedShown collationHost Window.loaded none samplePosts).Pairwise
      (fun a b => a.date = none → ¬ 0 < collationHost.localeCompare (dateOr b) "") ∧
    (∀ d, (sortedShown collationHost Window.loaded none samplePosts).filter
        (fun p => decide (collationHost.localeCompare (dateOr p) d = 0)) =
      (shownPosts Window.loaded none samplePosts).filter
        (fun p => decide (collationHost.localeCompare (dateOr p) d = 0))) ∧
    (∀ d, (sortedShown collationHost Window.loaded none samplePosts).filter
        (fun p => decide (dateOr p = d)) =
      (shownPosts Window.loaded none samplePosts).filter (fun p => decide (dateOr p = d))) ∧
    ((∀ s, s ≠ "" → 0 < collationHost.localeCompare s "") →
      (sortedShown collationHost Window.loaded none samplePosts).Pairwise
        (fun a b => a.date = none → ∀ d, b.date = some d → d = ""))) ∧
    (sortedShown collationHost Window.loaded none samplePosts).map Post.title =
      ["New", "Old", "Undated"] :=
  ⟨renderPosts_sorted_by_date collationHost collationHost_consistent none samplePosts
      (by decide),
    by decide⟩

/-! ## Claims on the expansion and the visibility of the tag list -/

theorem findIndex_ge_iff (t : String) (l : List (String × Nat))
    (hnd : (l.map Prod.fst).Nodup) (k : Nat) :
    (k : Int) ≤ findIndex (fun e => decide (some e.1 = some t)) l ↔
      ∃ i, k ≤ i ∧ (l.map Prod.fst)[i]? = some t := by
  induction l generalizing k with
  | nil =>
    simp only [findIndex, List.map_nil, List.getElem?_nil, reduceCtorEq, and_false,
      exists_false, iff_false]
    omega
  | cons e rest ih =>
    simp only [List.map_cons, List.nodup_cons] at hnd
    obtain ⟨hnot, hnd'⟩ := hnd
    by_cases he : e.1 = t
    · have hp : decide (some e.1 = some t) = true := by simp [he]
      simp only [findIndex, hp, if_true, List.map_cons]
      constructor
      · intro hk
        exact ⟨0, by omega, by simp [he]⟩
      · rintro ⟨i, hki, hi⟩
        cases i with
        | zero => omega
        | succ j =>
          exfalso
          simp only [List.getElem?_cons_succ] at hi
          exact hnot (he ▸ List.getElem?_mem hi)
    · have hp : decide (some e.1 = some t) = false := by simp [he]
      have ih0 := ih hnd' 0
      have ihk := ih hnd' (k - 1)
      simp only [findIndex, hp, Bool.false_eq_true, if_false, List.map_cons]
      by_cases hr : findIndex (fun e => decide (some e.1 = some t)) rest < 0
      · simp only [hr, if_true]
        constructor
        · intro hk
          omega
        · rintro ⟨i, _, hi⟩
          cases i with
          | zero =>
            simp only [List.getElem?_cons_zero, Option.some.injEq] at hi
            exact absurd hi he
          | succ j =>
            simp only [List.getElem?_cons_succ] at hi
            have := ih0.mpr ⟨j, Nat.zero_le _, hi⟩
            omega
      · simp only [hr, if_false]
        constructor
        · intro hk
          obtain ⟨j, hj, hjt⟩ := ihk.mp (by omega)
          exact ⟨j + 1, by omega, by simpa using hjt⟩
        · rintro ⟨i, hki, hi⟩
          cases i with
          | zero =>
            simp only [List.getElem?_cons_zero, Option.some.injEq] at hi
            exact absurd hi he
          | succ j =>
            simp only [List.getElem?_cons_succ] at hi
            have := ihk.mpr ⟨j, by omega, hi⟩
            omega

theorem sortedTags_ne_nil (host : Host) (posts : List Post) (hne : allTags posts ≠ []) :
    (sortedTags host Window.loaded posts).length ≠ 0 := by
  rw [sortedTags_length]
  intro h
  have hnil : (allTags posts).dedup = [] := List.length_eq_zero.mp h
  cases hall : allTags posts with
  | nil => exact hne hall
  | cons t ts =>
    have hm : t ∈ (allTags posts).dedup := by
      rw [List.mem_dedup, hall]
      exact List.mem_cons_self t ts
    rw [hnil] at hm
    exact absurd hm (List.not_mem_nil t)

theorem initialExpanded_iff (host : Host) (activeTag : Option String) (posts : List Post) :
    initialExpanded activeTag (sortedTags host Window.loaded posts) = true ↔
      ∃ t i, activeTag = some t ∧ t ≠ "" ∧ VISIBLE_COUNT ≤ i ∧
        ((sortedTags host Window.loaded posts).map Prod.fst)[i]? = some t := by
  cases activeTag with
  | none => simp [initialExpanded, isFalsy]
  | some t =>
    by_cases ht : t = ""
    · subst ht
      simp [initialExpanded, isFalsy, truthy]
    · have hf : isFalsy (some t) = false := by
        cases hv : isFalsy (some t) with
        | false => rfl
        | true =>
          rcases (isFalsy_iff (some t)).mp hv with h | h
          · exact absurd h (by simp)
          · exact absurd (Option.some.inj h) ht
      simp only [initialExpanded, hf, Bool.false_eq_true, if_false, ge_iff_le, decide_eq_true_eq,
        findIndex_ge_iff t _ (sortedTags_keys_nodup host posts) VISIBLE_COUNT]
      constructor
      · rintro ⟨i, hi, hit⟩
        exact ⟨t, i, rfl, ht, hi, hit⟩
      · rintro ⟨t', i, ht', _, hi, hit⟩
        cases ht'
        exact ⟨i, hi, hit⟩

theorem tagNav_list (host : Host) (activeTag : Option String) (posts : List Post)
    (hlen : (sortedTags host Window.loaded posts).length ≠ 0) :
    (tagNav host Window.loaded activeTag posts).list =
      some { children := (sortedTags host Window.loaded posts).mapIdx (tagAnchor host activeTag)
             classList := ["tags-list"] ++
               (if (!initialExpanded activeTag (sortedTags host Window.loaded posts)) = true
                then ["collapsed"] else []) } := by
  simp only [tagNav, hlen, if_false]

theorem tagNav_toggle (host : Host) (activeTag : Option String) (posts : List Post)
    (hlen : (sortedTags host Window.loaded posts).length ≠ 0) :
    (tagNav host Window.loaded activeTag posts).toggle =
      if (sortedTags host Window.loaded posts).length > VISIBLE_COUNT then
        some { textContent := toggleLabel
                 (initialExpanded activeTag (sortedTags host Window.loaded posts))
                 (sortedTags host Window.loaded posts).length
               ariaExpanded :=
                 if initialExpanded activeTag (sortedTags host Window.loaded posts) = true
                 then "true" else "false" }
      else none := by
  simp only [tagNav, hlen, if_false]

/-- C8: the code breaks the claim at an empty active tag. With the parameter
present and empty (`?tag=`) and the empty tag at sorted position 5, the active
tag is set and its position is not below `VISIBLE_COUNT`; the link of the empty
tag is marked active and is not marked visible, yet the list is rendered
collapsed and the toggle reports it as not expanded. -/
theorem tagNav_empty_active_stays_collapsed :
    (some "" : Option String) ≠ none ∧
    ((sortedTags lexHost Window.loaded emptyTagPosts).map Prod.fst)[5]? = some "" ∧
    VISIBLE_COUNT ≤ 5 ∧
    (tagNav lexHost Window.loaded (some "") emptyTagPosts).list.map
        (fun l => l.children[5]?) =
      some (some { href := "?tag=", textContent := " (1)", classList := ["tag", "active"] }) ∧
    (tagNav lexHost Window.loaded (some "") emptyTagPosts).list.map TagsList.classList =
      some ["tags-list", "collapsed"] ∧
    (tagNav lexHost Window.loaded (some "") emptyTagPosts).toggle =
      some { textContent := "展开全部标签 (6)", ariaExpanded := "false" } := by
  decide

/-- Away from the empty active tag the list is expanded exactly when the claim
says so: for posts with at least one tag and a `tag` parameter that is absent or
not empty, the list is rendered without the collapsed class if and only if the
parameter is present and at a position of the sorted sequence that is at least
`VISIBLE_COUNT`. -/
theorem tagNav_expanded_of_nonempty (host : Host) (activeTag : Option String)
    (posts : List Post) (hne : allTags posts ≠ []) (hact : activeTag ≠ some "") :
    ∃ list, (tagNav host Window.loaded activeTag posts).list = some list ∧
      ("collapsed" ∉ list.classList ↔
        ∃ t i, activeTag = some t ∧ VISIBLE_COUNT ≤ i ∧
          ((sortedTags host Window.loaded posts).map Prod.fst)[i]? = some t) := by
  have hlen := sortedTags_ne_nil host posts hne
  have hiff := initialExpanded_iff host activeTag posts
  have hcls : ∀ b : Bool,
      ("collapsed" ∉ ["tags-list"] ++ (if (!b) = true then ["collapsed"] else []) ↔ b = true) := by
    intro b
    cases b <;> decide
  refine ⟨_, tagNav_list host activeTag posts hlen, ?_⟩
  refine ((hcls _).trans hiff).trans ?_
  constructor
  · rintro ⟨t, i, ht, _, hi, hit⟩
    exact ⟨t, i, ht, hi, hit⟩
  · rintro ⟨t, i, ht, hi, hit⟩
    refine ⟨t, i, ht, ?_, hi, hit⟩
    intro hte
    exact hact (hte ▸ ht)

theorem visible_mem_tagAnchor (host : Host) (idx : Nat) (e : String × Nat) :
    "visible" ∈ (tagAnchor host none idx e).classList ↔ idx < VISIBLE_COUNT := by
  by_cases h : idx < VISIBLE_COUNT
  · simp [tagAnchor, h]
  · simp only [tagAnchor, h, if_false, reduceCtorEq, List.append_nil, iff_false]
    decide

theorem visible_count_from (host : Host) (l : List (String × Nat)) (k : Nat) :
    ((l.mapIdx (fun i e => tagAnchor host none (i + k) e)).filter
        (fun a => decide ("visible" ∈ a.classList))).length =
      min l.length (VISIBLE_COUNT - k) := by
  induction l generalizing k with
  | nil => simp
  | cons e rest ih =>
    have hshift : (fun i (e : String × Nat) => tagAnchor host none (i + 1 + k) e) =
        (fun i e => tagAnchor host none (i + (k + 1)) e) := by
      funext i e
      rw [Nat.add_assoc, Nat.add_comm 1 k]
    rw [List.mapIdx_cons, hshift, List.filter_cons]
    have ih' := ih (k + 1)
    by_cases hk : 0 + k < VISIBLE_COUNT
    · have hv : decide ("visible" ∈ (tagAnchor host none (0 + k) e).classList) = true := by
        simpa [visible_mem_tagAnchor] using hk
      rw [if_pos hv, List.length_cons, ih', List.length_cons]
      omega
    · have hv : ¬ decide ("visible" ∈ (tagAnchor host none (0 + k) e).classList) = true := by
        simpa [visible_mem_tagAnchor] using hk
      rw [if_neg hv, ih', List.length_cons]
      omega

theorem visible_count (host : Host) (l : List (String × Nat)) :
    ((l.mapIdx (tagAnchor host none)).filter
        (fun a => decide ("visible" ∈ a.classList))).length = min l.length VISIBLE_COUNT := by
  have h := visible_count_from host l 0
  simpa using h

theorem tagAnchor_no_active (host : Host) (idx : Nat) (e : String × Nat) :
    tagAnchor host none idx e =
      { href := "?tag=" ++ host.encodeURIComponent e.1
        textContent := e.1 ++ " (" ++ toString e.2 ++ ")"
        classList := if idx < 5 then ["tag", "visible"] else ["tag"] } := by
  by_cases h : idx < 5
  · simp [tagAnchor, VISIBLE_COUNT, h]
  · simp [tagAnchor, VISIBLE_COUNT, h]

theorem visible_filter_from (host : Host) (l : List (String × Nat)) (k : Nat) :
    (l.mapIdx (fun i e => tagAnchor host none (i + k) e)).filter
        (fun a => decide ("visible" ∈ a.classList)) =
      (l.take (VISIBLE_COUNT - k)).map (fun e =>
        { href := "?tag=" ++ host.encodeURIComponent e.1
          textContent := e.1 ++ " (" ++ toString e.2 ++ ")"
          classList := ["tag", "visible"] }) := by
  induction l generalizing k with
  | nil => simp
  | cons e rest ih =>
    have hshift : (fun i (e : String × Nat) => tagAnchor host none (i + 1 + k) e) =
        (fun i e => tagAnchor host none (i + (k + 1)) e) := by
      funext i e
      rw [Nat.add_assoc, Nat.add_comm 1 k]
    rw [List.mapIdx_cons, hshift, List.filter_cons]
    have ih' := ih (k + 1)
    by_cases hk : 0 + k < VISIBLE_COUNT
    · have hv : decide ("visible" ∈ (tagAnchor host none (0 + k) e).classList) = true := by
        simpa [visible_mem_tagAnchor] using hk
      have hk5 : 0 + k < 5 := hk
      obtain ⟨m, hm⟩ : ∃ m, VISIBLE_COUNT - k = m + 1 := ⟨VISIBLE_COUNT - k - 1, by omega⟩
      have hm' : VISIBLE_COUNT - (k + 1) = m := by omega
      rw [if_pos hv, ih', hm, hm', List.take_succ_cons, List.map_cons, tagAnchor_no_active,
        if_pos hk5]
    · have hv : ¬ decide ("visible" ∈ (tagAnchor host none (0 + k) e).classList) = true := by
        simpa [visible_mem_tagAnchor] using hk
      have h0 : VISIBLE_COUNT - k = 0 := by omega
      have h0' : VISIBLE_COUNT - (k + 1) = 0 := by omega
      rw [if_neg hv, ih', h0, h0']
      simp

theorem visible_filter (host : Host) (l : List (String × Nat)) :
    (l.mapIdx (tagAnchor host none)).filter (fun a => decide ("visible" ∈ a.classList)) =
      (l.take 5).map (fun e =>
        { href := "?tag=" ++ host.encodeURIComponent e.1
          textContent := e.1 ++ " (" ++ toString e.2 ++ ")"
          classList := ["tag", "visible"] }) := by
  have h := visible_filter_from host l 0
  simpa [VISIBLE_COUNT] using h

/-- C9: for posts with n ≥ 1 distinct tags and no `tag` parameter, the tag list
has one link per entry of the sorted sequence, in that order: the link at index
i is the link of the i-th sorted entry (its href, and its label of tag and
count), and it is marked visible if and only if i is below 5, so min(n, 5)
entries are visible; the list is collapsed; the toggle is rendered if and only
if n > 5, with the label of the collapsed state carrying n (the source's text
for "Expand all tags (n)") and `aria-expanded` false; for n = 7 five entries are
visible and the label carries 7. -/
theorem tagNav_no_active_tag (host : Host) (posts : List Post) (hne : allTags posts ≠ []) :
    (sortedTags host Window.loaded posts).length = (allTags posts).dedup.length ∧
    ∃ list, (tagNav host Window.loaded none posts).list = some list ∧
      list.children.length = (allTags posts).dedup.length ∧
      (∀ i : Nat, list.children[i]? =
        ((sortedTags host Window.loaded posts)[i]?).map (fun e =>
          ({ href := "?tag=" ++ host.encodeURIComponent e.1
             textContent := e.1 ++ " (" ++ toString e.2 ++ ")"
             classList := if i < 5 then ["tag", "visible"] else ["tag"] } : Anchor))) ∧
      (∀ i a, list.children[i]? = some a → ("visible" ∈ a.classList ↔ i < 5)) ∧
      (list.children.filter (fun a => decide ("visible" ∈ a.classList))).length =
        min (allTags posts).dedup.length 5 ∧
      list.children.filter (fun a => decide ("visible" ∈ a.classList)) =
        ((sortedTags host Window.loaded posts).take 5).map (fun e =>
          { href := "?tag=" ++ host.encodeURIComponent e.1
            textContent := e.1 ++ " (" ++ toString e.2 ++ ")"
            classList := ["tag", "visible"] }) ∧
      "collapsed" ∈ list.classList ∧
      (tagNav host Window.loaded none posts).toggle =
        (if 5 < (allTags posts).dedup.length then
          some { textContent := "展开全部标签 (" ++ toString (allTags posts).dedup.length ++ ")"
                 ariaExpanded := "false" }
         else none) ∧
      ((allTags posts).dedup.length = 7 →
        (list.children.filter (fun a => decide ("visible" ∈ a.classList))).length = 5 ∧
        (tagNav host Window.loaded none posts).toggle =
          some { textContent := "展开全部标签 (7)", ariaExpanded := "false" }) := by
  have hlen := sortedTags_ne_nil host posts hne
  have hn := sortedTags_length host posts
  have hexp : initialExpanded none (sortedTags host Window.loaded posts) = false := by
    simp [initialExpanded, isFalsy]
  have hcount := visible_count host (sortedTags host Window.loaded posts)
  have htoggle : (tagNav host Window.loaded none posts).toggle =
      (if 5 < (allTags posts).dedup.length then
        some { textContent := "展开全部标签 (" ++ toString (allTags posts).dedup.length ++ ")"
               ariaExpanded := "false" }
       else none) := by
    rw [tagNav_toggle host none posts hlen, hexp, hn]
    simp [toggleLabel, VISIBLE_COUNT]
  refine ⟨hn, _, tagNav_list host none posts hlen, ?_, ?_, ?_, ?_, ?_, ?_, htoggle, ?_⟩
  · simp only [List.length_mapIdx, hn]
  · intro i
    simp only [List.getElem?_mapIdx]
    cases (sortedTags host Window.loaded posts)[i]? with
    | none => rfl
    | some e => simp only [Option.map_some', tagAnchor_no_active]
  · intro i a hia
    simp only [List.getElem?_mapIdx, Option.map_eq_some'] at hia
    obtain ⟨e, _, rfl⟩ := hia
    exact visible_mem_tagAnchor host i e
  · simp only [hcount, hn, VISIBLE_COUNT]
  · exact visible_filter host (sortedTags host Window.loaded posts)
  · simp [hexp]
  · intro h7
    refine ⟨?_, ?_⟩
    · simp only [hcount, hn, h7, VISIBLE_COUNT]
      decide
    · rw [htoggle, h7]
      decide

/-- Witness of C9: seven distinct tags and no `tag` parameter, under the
lexicographic host: the links are those of a to g in sorted order, the first
five are the visible ones, and the toggle is labelled with 7. -/
theorem tagNav_no_active_tag_witness :
    (∃ list, (tagNav lexHost Window.loaded none sevenTagPosts).list = some list ∧
      (list.children.filter (fun a => decide ("visible" ∈ a.classList))).length = 5 ∧
      list.children.filter (fun a => decide ("visible" ∈ a.classList)) =
        ((sortedTags lexHost Window.loaded sevenTagPosts).take 5).map (fun e =>
          { href := "?tag=" ++ lexHost.encodeURIComponent e.1
            textContent := e.1 ++ " (" ++ toString e.2 ++ ")"
            classList := ["tag", "visible"] }) ∧
      "collapsed" ∈ list.classList ∧
      (tagNav lexHost Window.loaded none sevenTagPosts).toggle =
        some { textContent := "展开全部标签 (7)", ariaExpanded := "false" }) ∧
    (tagNav lexHost Window.loaded none sevenTagPosts).list.map
        (fun l => l.children.map (fun a => (a.textContent, a.classList))) =
      some [("a (1)", ["tag", "visible"]), ("b (1)", ["tag", "visible"]),
        ("c (1)", ["tag", "visible"]), ("d (1)", ["tag", "visible"]),
        ("e (1)", ["tag", "visible"]), ("f (1)", ["tag"]), ("g (1)", ["tag"])] := by
  obtain ⟨_, list, hl, _, _, _, _, hvis, hcol, _, h7⟩ :=
    tagNav_no_active_tag lexHost sevenTagPosts (by decide)
  have hseven : (allTags sevenTagPosts).dedup.length = 7 := by decide
  exact ⟨⟨list, hl, (h7 hseven).1, hvis, hcol, (h7 hseven).2⟩, by decide⟩


end Site
